import Mathlib

set_option autoImplicit false

/-!
Verification development for the UCL module-catalogue scraper (`scrape.py`).

The script is a linear fetch-parse-accumulate-serialize pipeline.  We embed its
pure extraction logic shallowly: Python strings become `String`, Python dicts
become insertion-ordered association lists with overwrite-in-place assignment
(`pyDictSet`, matching CPython's `d[k] = v` semantics since 3.7), a parsed
BeautifulSoup document becomes an explicit `Doc` structure carrying exactly the
text fragments the script reads from the markup, and the HTTP fetch becomes an
oracle `String → Except String Doc` (an `error` models a raised exception such
as `requests`' `raise_for_status`).
-/

namespace UclMods

/-- Python's `str.strip()` / `\s` whitespace class (ASCII part; the script's
inputs are catalogue text where this is the relevant fragment). -/
def isPySpace (c : Char) : Bool :=
  c == ' ' || c == '\t' || c == '\n' || c == '\r' || c == '\x0b' || c == '\x0c'

/-- Digit class for the regex `\d` in `re.split(r"\d+\.\s+", …)`. -/
def isPyDigit (c : Char) : Bool :=
  c.isDigit

/-- Python `s.strip()`: drop leading and trailing whitespace. -/
def pyStrip (s : String) : String :=
  ⟨((s.data.dropWhile isPySpace).reverse.dropWhile isPySpace).reverse⟩

/-- Python `s.startswith(p)`. -/
def pyStartsWith (s p : String) : Bool :=
  p.data.isPrefixOf s.data

/-- Worker for `pySplitOnce`: scan for the first separator, accumulating the
characters seen so far (reversed). -/
def pySplitOnceGo (sep : Char) : List Char → List Char → List String
  | [], acc => [⟨acc.reverse⟩]
  | c :: rest, acc =>
    if c == sep then [⟨acc.reverse⟩, ⟨rest⟩] else pySplitOnceGo sep rest (c :: acc)

/-- Python `s.split(sep, 1)` for a one-character separator: two parts when the
separator occurs, the whole string as a singleton otherwise. -/
def pySplitOnce (sep : Char) (s : String) : List String :=
  pySplitOnceGo sep s.data []

/-- Length of a match of the regex `\d+\.\s+` anchored at the head of `cs`
(`0` when there is no match).  `\d+` greedily takes the maximal digit run:
backtracking to a shorter run cannot help, since the run would then end on a
digit, never on the required `'.'`. -/
def markerLen (cs : List Char) : Nat :=
  let ds := (cs.takeWhile isPyDigit).length
  if ds == 0 then 0
  else
    match cs.drop ds with
    | '.' :: rest =>
      let ws := (rest.takeWhile isPySpace).length
      if ws == 0 then 0 else ds + 1 + ws
    | _ => 0

/-- Worker for `reSplitNum`: left-to-right scan emitting a fragment at each
non-overlapping leftmost match of `\d+\.\s+`, exactly as `re.split` does.  The
fuel is bounded below by the number of characters still to scan (every step
consumes at least one character and one unit of fuel), so with initial fuel
`cs.length` the fallback first branch is only reached with `cs = []`, where it
agrees with the `[]` branch. -/
def reSplitNumGo : Nat → List Char → List Char → List String
  | 0, cs, acc => [⟨acc.reverse ++ cs⟩]
  | _ + 1, [], acc => [⟨acc.reverse⟩]
  | fuel + 1, c :: rest, acc =>
    let n := markerLen (c :: rest)
    if n == 0 then reSplitNumGo fuel rest (c :: acc)
    else ⟨acc.reverse⟩ :: reSplitNumGo fuel ((c :: rest).drop n) []

/-- Python `re.split(r"\d+\.\s+", s)`. -/
def reSplitNum (s : String) : List String :=
  reSplitNumGo s.data.length s.data []

/-- Lines 128-132 of `scrape.py`: split the raw aims buffer on numeric list
markers, keep fragments that strip to something nonempty and do not start with
`"At the end"`, and strip the kept fragments. -/
def aimsOf (raw : String) : List String :=
  ((reSplitNum raw).filter
      (fun a => !(pyStrip a == "") && !(pyStartsWith a "At the end"))).map pyStrip

/-- Lines 76-83 of `scrape.py`, for one assessment `div`'s joined text: split
on the first `"%"`; with two parts the result is `(label, weight)` where the
weight is the stripped left part with `"%"` re-appended, otherwise the whole
text is the label and the weight is empty. -/
def parseAssess (text : String) : String × String :=
  match pySplitOnce '%' text with
  | [before, after] => (pyStrip after, pyStrip before ++ "%")
  | _ => (text, "")

/-- CPython dict assignment `d[k] = v` on an insertion-ordered dict: update the
value in place when the key is present, append the pair otherwise. -/
def pyDictSet {α : Type} : List (String × α) → String → α → List (String × α)
  | [], k, v => [(k, v)]
  | (k', v') :: rest, k, v =>
    if k' = k then (k', v) :: rest else (k', v') :: pyDictSet rest k v

/-- A `dd` value element as the script reads it: its `stripped_strings` (used
for restrictions) and the `get_text(" ", strip=True)` of each of its `div`
descendants (used for the assessment breakdown). -/
structure Dd where
  strippedStrings : List String
  divTexts : List String
deriving DecidableEq, Repr

/-- One `dt` of `dl.dl-inline` together with its `find_next_sibling("dd")`:
`dt` is the label's `get_text(strip=True)`, `dd` is `none` when no `dd`
sibling follows. -/
structure DlEntry where
  dt : String
  dd : Option Dd
deriving DecidableEq, Repr

/-- A direct-child `p` of the description `div`: `strong` is
`get_text(strip=True)` of the first `strong` descendant when one exists
(`p.find("strong")`), `text` is `p.get_text(" ", strip=True)`. -/
structure Para where
  strong : Option String
  text : String
deriving DecidableEq, Repr

/-- The fragments of a parsed catalogue page that `fetch_module` reads:
the `h1.heading` text (if present), the `(name, content)` attribute pairs of
the `meta` tags carrying both attributes, the `dl.dl-inline` label/value
pairs, and the direct-child paragraphs of `div.module-description` (`none`
when that `div` is absent). -/
structure Doc where
  title : Option String
  metas : List (String × String)
  dl : List DlEntry
  descParas : Option (List Para)
deriving DecidableEq, Repr

/-- Lines 48-52 of `scrape.py`: the dict comprehension over `meta` tags whose
name starts with `"ucl:sanitized_"` (later duplicates overwrite, first
insertion position is kept, as for any Python dict build). -/
def metaMapOf (metas : List (String × String)) : List (String × String) :=
  (metas.filter (fun p => pyStartsWith p.1 "ucl:sanitized_")).foldl
    (fun d p => pyDictSet d p.1 p.2) []

/-- Python `d.get(k, "")`. -/
def metaGet (d : List (String × String)) (k : String) : String :=
  (List.lookup k d).getD ""

/-- Lines 61-67 of `scrape.py`: find the first `dt` whose stripped text is
exactly `"Restrictions"`; if it has a following `dd`, join that `dd`'s
stripped strings with single spaces; otherwise (or when no such `dt` exists)
the empty string. -/
def restrictionsOf (dl : List DlEntry) : String :=
  match dl.find? (fun e => e.dt == "Restrictions") with
  | some e =>
    match e.dd with
    | some dd => String.intercalate " " dd.strippedStrings
    | none => ""
  | none => ""

/-- The loop body of lines 75-83 of `scrape.py` over the assessment `div`
texts: parse each text and assign `assessment[label] = weight` into the dict. -/
def assessFromTexts (texts : List String) : List (String × String) :=
  texts.foldl (fun d t => pyDictSet d (parseAssess t).1 (parseAssess t).2) []

/-- Lines 70-84 of `scrape.py`: locate the first `dt` reading exactly
`"Methods of assessment"`, and feed its `dd`'s `div` texts through the
assessment parser; the empty dict when label or `dd` is missing. -/
def assessmentOf (dl : List DlEntry) : List (String × String) :=
  match dl.find? (fun e => e.dt == "Methods of assessment") with
  | some e =>
    match e.dd with
    | some dd => assessFromTexts dd.divTexts
    | none => []
  | none => []

/-- The section state of the description walk (`state` in `scrape.py`):
`None` / `"outline"` / `"aims"` / `"methods"`. -/
inductive SecState where
  | noneS
  | outlineS
  | aimsS
  | methodsS
deriving DecidableEq, Repr

/-- The mutable accumulators of the description walk: current state, the
`outline` list, the `raw_aims` buffer, and the `learning_methods` dict. -/
structure DescAcc where
  state : SecState
  outline : List String
  rawAims : String
  methods : List (String × String)
deriving DecidableEq, Repr

/-- Lines 100-107 of `scrape.py`: the state selected by a bolded heading's
text. -/
def headingState (h : String) : SecState :=
  if h = "Module Outline:" then .outlineS
  else if h = "Module Aims:" then .aimsS
  else if pyStartsWith h "Teaching and Learning Methods" then .methodsS
  else .noneS

/-- Lines 111-123 of `scrape.py`: contribution of a non-heading paragraph's
text to the accumulator of the current section (no contribution when the
state is `None`).  In the methods case the text is split on the first colon;
without a colon it is space-appended to the `"notes"` entry
(`setdefault("notes", "")` followed by `+=`). -/
def bodyContribute (acc : DescAcc) (txt : String) : DescAcc :=
  match acc.state with
  | .outlineS => { acc with outline := acc.outline ++ [txt] }
  | .aimsS => { acc with rawAims := acc.rawAims ++ txt ++ "\n" }
  | .methodsS =>
    match pySplitOnce ':' txt with
    | [key, val] => { acc with methods := pyDictSet acc.methods (pyStrip key) (pyStrip val) }
    | _ =>
      { acc with
        methods := pyDictSet acc.methods "notes"
          ((List.lookup "notes" acc.methods).getD "" ++ " " ++ txt) }
  | .noneS => acc

/-- Lines 95-123 of `scrape.py`, one loop iteration: a paragraph containing a
`strong` element switches the state according to the bolded text and
contributes nothing (`continue`); any other paragraph contributes its text to
the current section. -/
def descStep (acc : DescAcc) (p : Para) : DescAcc :=
  match p.strong with
  | some h => { acc with state := headingState h }
  | none => bodyContribute acc p.text

/-- The initial accumulators of lines 87-94 of `scrape.py`. -/
def descInit : DescAcc :=
  ⟨.noneS, [], "", []⟩

/-- The whole description walk of lines 91-123 of `scrape.py`. -/
def descRun (ps : List Para) : DescAcc :=
  ps.foldl descStep descInit

/-- A value stored in the record dict: a string, the aims list, or the
learning-methods dict. -/
inductive Value where
  | s : String → Value
  | list : List String → Value
  | dict : List (String × String) → Value
deriving DecidableEq, Repr

/-- Line 12 of `scrape.py`. -/
def BASE_URL : String :=
  "https://www.ucl.ac.uk/module-catalogue/modules/"

/-- The thirteen fixed entries of lines 138-152 of `scrape.py`, in insertion
order. -/
def fixedPart (slug : String) (doc : Doc) : List (String × Value) :=
  let desc := match doc.descParas with
    | some ps => descRun ps
    | none => descInit
  [("slug", .s slug),
   ("url", .s (BASE_URL ++ slug)),
   ("title", .s (doc.title.getD slug)),
   ("faculty", .s (metaGet (metaMapOf doc.metas) "ucl:sanitized_faculty")),
   ("department", .s (metaGet (metaMapOf doc.metas) "ucl:sanitized_teaching_department")),
   ("credit_value", .s (metaGet (metaMapOf doc.metas) "ucl:sanitized_credit_value")),
   ("level", .s (metaGet (metaMapOf doc.metas) "ucl:sanitized_level")),
   ("teaching_term", .s (metaGet (metaMapOf doc.metas) "ucl:sanitized_intended_teaching_term")),
   ("subject", .s (metaGet (metaMapOf doc.metas) "ucl:sanitized_subject")),
   ("restrictions", .s (restrictionsOf doc.dl)),
   ("outline", .s (pyStrip (String.intercalate " " desc.outline))),
   ("aims", .list (aimsOf desc.rawAims)),
   ("learning_methods", .dict desc.methods)]

/-- Python `label.replace(' ', '_')`. -/
def underscoreSpaces (s : String) : String :=
  ⟨s.data.map (fun c => if c = ' ' then '_' else c)⟩

/-- The flattened key of line 155 of `scrape.py`. -/
def assessKey (label : String) : String :=
  "assessment_" ++ underscoreSpaces label

/-- Lines 154-156 of `scrape.py`: flatten the assessment dict into the record
by dict assignment. -/
def flattenAssess (r : List (String × Value)) (assessment : List (String × String)) :
    List (String × Value) :=
  assessment.foldl (fun r lw => pyDictSet r (assessKey lw.1) (.s lw.2)) r

/-- Lines 38-158 of `scrape.py` after the network and parsing boundary: the
record dict assembled from one parsed page.  (The `time.sleep(delay)` throttle
has no effect on the record and is not modelled.) -/
def fetchModuleRecord (slug : String) (doc : Doc) : List (String × Value) :=
  flattenAssess (fixedPart slug doc) (assessmentOf doc.dl)

/-- Modelled library behavior (`json`): the escapes `json.dumps` applies to
the characters occurring in catalogue text (quote, backslash, newline, tab,
carriage return); any other character is emitted as itself.  Only determinism
of the rendering matters for the claims below. -/
def jsonEscapeChar (c : Char) : String :=
  if c = '"' then "\\\""
  else if c = '\\' then "\\\\"
  else if c = '\n' then "\\n"
  else if c = '\t' then "\\t"
  else if c = '\r' then "\\r"
  else String.singleton c

/-- Render a string as a JSON string literal. -/
def jsonStr (s : String) : String :=
  "\"" ++ String.join (s.data.map jsonEscapeChar) ++ "\""

/-- Render one record value as JSON (strings, arrays of strings, and
string-to-string objects are the only shapes the record holds). -/
def jsonValue : Value → String
  | .s v => jsonStr v
  | .list vs => "[" ++ String.intercalate ", " (vs.map jsonStr) ++ "]"
  | .dict kvs =>
    "\x7b" ++ String.intercalate ", " (kvs.map (fun p => jsonStr p.1 ++ ": " ++ jsonStr p.2))
      ++ "\x7d"

/-- Render one record dict as a JSON object, keys in insertion order (as
`json.dump` emits Python dicts). -/
def jsonRecord (r : List (String × Value)) : String :=
  "\x7b" ++ String.intercalate ", " (r.map (fun p => jsonStr p.1 ++ ": " ++ jsonValue p.2))
    ++ "\x7d"

/-- Modelled library behavior (`json.dump(records, f, indent=2)`), line 174 of
`scrape.py`: a deterministic rendering of the record list (indentation
whitespace is not reproduced byte-for-byte; the claims below only compare two
renderings with each other). -/
def serializeJson (records : List (List (String × Value))) : String :=
  "[" ++ String.intercalate ", " (records.map jsonRecord) ++ "]"

/-- Modelled library behavior (`pd.DataFrame(records)`): the column list is
the union of the records' keys in order of first appearance. -/
def unionKeys (records : List (List (String × Value))) : List String :=
  records.foldl (fun cols r => cols ++ (r.map Prod.fst).filter (fun k => !cols.contains k)) []

/-- One CSV cell: the record's value under the column, empty when the record
lacks the column (pandas renders the resulting NaN as an empty cell); list and
dict values appear as their `json.dumps` text, as lines 179-180 of `scrape.py`
arrange. -/
def csvCell (r : List (String × Value)) (col : String) : String :=
  match List.lookup col r with
  | some (.s v) => v
  | some (.list vs) => "[" ++ String.intercalate ", " (vs.map jsonStr) ++ "]"
  | some (.dict kvs) =>
    "\x7b" ++ String.intercalate ", " (kvs.map (fun p => jsonStr p.1 ++ ": " ++ jsonStr p.2))
      ++ "\x7d"
  | none => ""

/-- Modelled library behavior (`df.to_csv(..., index=False)`): header row then
one row per record (cell quoting rules are not reproduced; only determinism
and the fact of the write matter for the claims below). -/
def renderCsv (records : List (List (String × Value))) : String :=
  let cols := unionKeys records
  String.intercalate "\n"
    (String.intercalate "," cols
      :: records.map (fun r => String.intercalate "," (cols.map (csvCell r))))

/-- Lines 178-181 of `scrape.py`: `df["aims"]` and `df["learning_methods"]`
are read before `to_csv`; reading a column absent from the DataFrame raises a
`KeyError` (which is what happens when `records` is empty, since
`pd.DataFrame([])` has no columns), modelled as `Except.error`. -/
def csvStep (records : List (List (String × Value))) : Except String String :=
  if (unionKeys records).contains "aims" then
    if (unionKeys records).contains "learning_methods" then
      Except.ok (renderCsv records)
    else Except.error "KeyError: learning_methods"
  else Except.error "KeyError: aims"

/-- Lines 162-170 of `scrape.py`: iterate the slugs, appending the record of
each successful fetch and skipping a slug whose fetch raises.  The fetch and
parse of one slug are abstracted as an oracle from slug to `Except`; an
`error e` models a raised exception with message `e`. -/
def mainRecords (oracle : String → Except String Doc) (slugs : List String) :
    List (List (String × Value)) :=
  slugs.filterMap (fun s =>
    match oracle s with
    | .ok doc => some (fetchModuleRecord s doc)
    | .error _ => none)

/-- The per-slug progress line printed by lines 164-170 of `scrape.py`. -/
def logLine (oracle : String → Except String Doc) (s : String) : String :=
  match oracle s with
  | .ok _ => "→ fetching " ++ s ++ " … OK"
  | .error e => "→ fetching " ++ s ++ " … ERROR: " ++ e

/-- The observable outcome of one run of `main`: the stdout lines, the files
written (name, content) in write order, and whether the process reached the
end of `main` (rather than dying on an uncaught exception). -/
structure RunResult where
  log : List String
  files : List (String × String)
  completed : Bool
deriving DecidableEq, Repr

/-- Lines 161-182 of `scrape.py`: collect the records, write the JSON file,
then run the DataFrame step; a `KeyError` there is uncaught, so the run dies
after the JSON write and the CSV file is never written. -/
def mainRun (oracle : String → Except String Doc) (slugs : List String) : RunResult :=
  let records := mainRecords oracle slugs
  let log := slugs.map (logLine oracle)
  match csvStep records with
  | .ok csv =>
    { log := log ++ ["Wrote ucl_modules_structured.json", "Wrote ucl_modules_structured.csv"]
      files := [("ucl_modules_structured.json", serializeJson records),
                ("ucl_modules_structured.csv", csv)]
      completed := true }
  | .error _ =>
    { log := log ++ ["Wrote ucl_modules_structured.json"]
      files := [("ucl_modules_structured.json", serializeJson records)]
      completed := false }

/-- The identifier field of a record, when it is a string (it always is for
records the extractor builds). -/
def recSlug (r : List (String × Value)) : Option String :=
  match List.lookup "slug" r with
  | some (.s x) => some x
  | _ => none

/-- The identifiers of a record collection, in collection order. -/
def recordSlugs (records : List (List (String × Value))) : List String :=
  records.filterMap recSlug

/-- Following the spec's words (for comparison with the source's `descStep`):
the heading text of a paragraph "consisting solely of bolded heading text" —
`none` when the paragraph has no bold element or has text beyond it. -/
def specHeadingOf (p : Para) : Option String :=
  match p.strong with
  | some h => if p.text = h then some h else none
  | none => none

/-- Following the spec's words: only a solely-bolded paragraph switches the
state; every other paragraph contributes its text to the current section. -/
def specDescStep (acc : DescAcc) (p : Para) : DescAcc :=
  match specHeadingOf p with
  | some h => { acc with state := headingState h }
  | none => bodyContribute acc p.text

/-- The description walk as the spec's words describe it. -/
def specDescRun (ps : List Para) : DescAcc :=
  ps.foldl specDescStep descInit

/-- A paragraph classified for the amended description: a heading is any
paragraph containing a bold element (its bolded text attached), everything
else is body text. -/
inductive DescTok where
  | heading : String → DescTok
  | body : String → DescTok
deriving DecidableEq, Repr

/-- Classification of a paragraph for the amended description walk. -/
def tokOf (p : Para) : DescTok :=
  match p.strong with
  | some h => .heading h
  | none => .body p.text

/-- The amended walk's step: a heading only switches the state (contributing
no body text), a body paragraph feeds the current section's accumulator. -/
def amendedStep (acc : DescAcc) : DescTok → DescAcc
  | .heading h => { acc with state := headingState h }
  | .body t => bodyContribute acc t

/-- The description walk under the amended reading: classify every paragraph,
then fold. -/
def amendedDescRun (ps : List Para) : DescAcc :=
  (ps.map tokOf).foldl amendedStep descInit

/-- Following the spec's words (for comparison with the source's
`parseAssess`): when a `"%"` occurs, the label is the trimmed text after the
first `"%"` and the weight the trimmed text before it with `"%"` re-appended;
with no `"%"`, the whole text is the label and the weight is empty. -/
def specParseAssess (text : String) : String × String :=
  if text.data.contains '%' then
    (pyStrip ⟨(text.data.dropWhile (fun c => !(c == '%'))).tail⟩,
     pyStrip ⟨text.data.takeWhile (fun c => !(c == '%'))⟩ ++ "%")
  else (text, "")

/-- The thirteen fixed record keys, in insertion order. -/
def fixedKeys : List String :=
  ["slug", "url", "title", "faculty", "department", "credit_value", "level",
   "teaching_term", "subject", "restrictions", "outline", "aims", "learning_methods"]

/-- A record entry whose key carries the `assessment_` marker. -/
def isAssessPair (p : String × Value) : Bool :=
  "assessment_".data.isPrefixOf p.1.data

section DictLemmas

variable {α : Type}

theorem lookup_pyDictSet_self (d : List (String × α)) (k : String) (v : α) :
    List.lookup k (pyDictSet d k v) = some v := by
  induction d with
  | nil => simp [pyDictSet, List.lookup]
  | cons p rest ih =>
    obtain ⟨k', v'⟩ := p
    by_cases h : k' = k
    · subst h
      simp [pyDictSet, List.lookup]
    · have hb : (k == k') = false := by simp [Ne.symm h]
      simp [pyDictSet, h, List.lookup, hb, ih]

theorem lookup_pyDictSet_ne (d : List (String × α)) (k k' : String) (v : α)
    (h : k' ≠ k) : List.lookup k' (pyDictSet d k v) = List.lookup k' d := by
  have hb : (k' == k) = false := by simp [h]
  induction d with
  | nil => simp [pyDictSet, List.lookup, hb]
  | cons p rest ih =>
    obtain ⟨a, b⟩ := p
    by_cases ha : a = k
    · subst ha
      simp [pyDictSet, List.lookup, hb]
    · simp [pyDictSet, ha, List.lookup, ih]

theorem keys_pyDictSet (d : List (String × α)) (k : String) (v : α) :
    (pyDictSet d k v).map Prod.fst =
      if k ∈ d.map Prod.fst then d.map Prod.fst else d.map Prod.fst ++ [k] := by
  induction d with
  | nil => simp [pyDictSet]
  | cons p rest ih =>
    obtain ⟨a, b⟩ := p
    by_cases ha : a = k
    · subst ha
      simp [pyDictSet]
    · by_cases hk : k ∈ rest.map Prod.fst
      · simp [pyDictSet, ha, ih, hk, Ne.symm ha]
      · simp [pyDictSet, ha, ih, hk, Ne.symm ha]

theorem nodup_keys_pyDictSet (d : List (String × α)) (k : String) (v : α)
    (h : (d.map Prod.fst).Nodup) : ((pyDictSet d k v).map Prod.fst).Nodup := by
  rw [keys_pyDictSet]
  by_cases hk : k ∈ d.map Prod.fst
  · simpa [hk] using h
  · rw [if_neg hk]
    refine List.Nodup.append h (List.nodup_singleton k) ?_
    intro x hx hk'
    simp only [List.mem_singleton] at hk'
    subst hk'
    exact hk hx

theorem pyDictSet_append_left (base rest : List (String × α)) (k : String) (v : α)
    (h : ∀ p ∈ base, p.1 ≠ k) :
    pyDictSet (base ++ rest) k v = base ++ pyDictSet rest k v := by
  induction base with
  | nil => simp
  | cons p base' ih =>
    obtain ⟨a, b⟩ := p
    have ha : a ≠ k := h (a, b) (List.mem_cons_self _ _)
    have hrest := ih (fun q hq => h q (List.mem_cons_of_mem _ hq))
    simp [pyDictSet, ha, hrest]

theorem all_pyDictSet (pr : String × α → Bool) (d : List (String × α)) (k : String) (v : α)
    (hd : d.all pr = true) (hk : pr (k, v) = true) :
    (pyDictSet d k v).all pr = true := by
  induction d with
  | nil => simpa [pyDictSet]
  | cons p rest ih =>
    obtain ⟨a, b⟩ := p
    simp only [List.all_cons, Bool.and_eq_true] at hd
    by_cases ha : a = k
    · subst ha
      simp [pyDictSet, hk, hd.2]
    · simp only [pyDictSet, if_neg ha, List.all_cons, Bool.and_eq_true]
      exact ⟨hd.1, ih hd.2⟩

end DictLemmas

theorem isPrefixOf_append_self (l t : List Char) : l.isPrefixOf (l ++ t) = true := by
  induction l with
  | nil => simp [List.isPrefixOf]
  | cons a as ih => simp [List.isPrefixOf, ih]

theorem strData_append (s t : String) : (s ++ t).data = s.data ++ t.data := by
  cases s
  cases t
  rfl

/-- Every flattened assessment key starts with the `assessment_` marker, so it
can never equal a key that does not. -/
theorem assessKey_ne (label k : String)
    (h : "assessment_".data.isPrefixOf k.data = false) : assessKey label ≠ k := by
  intro heq
  have hd : ("assessment_" : String).data ++ (underscoreSpaces label).data = k.data := by
    rw [← heq]
    exact (strData_append _ _).symm
  rw [← hd, isPrefixOf_append_self] at h
  simp at h

/-- The record dict never updates a fixed entry during assessment flattening:
the fixed part is preserved verbatim and the assessment entries accumulate
after it. -/
theorem flattenAssess_append_left (base rest : List (String × Value))
    (assessment : List (String × String))
    (h : ∀ p ∈ base, "assessment_".data.isPrefixOf p.1.data = false) :
    flattenAssess (base ++ rest) assessment = base ++ flattenAssess rest assessment := by
  induction assessment generalizing rest with
  | nil => simp [flattenAssess]
  | cons lw items ih =>
    have hstep : pyDictSet (base ++ rest) (assessKey lw.1) (Value.s lw.2) =
        base ++ pyDictSet rest (assessKey lw.1) (Value.s lw.2) :=
      pyDictSet_append_left _ _ _ _ (fun p hp => (assessKey_ne _ _ (h p hp)).symm)
    simp only [flattenAssess, List.foldl_cons] at *
    rw [hstep, ih]

/-- The fixed part's keys are exactly the thirteen fixed keys, whatever the
page content. -/
theorem map_fst_fixedPart (slug : String) (doc : Doc) :
    (fixedPart slug doc).map Prod.fst = fixedKeys :=
  rfl

/-- None of the thirteen fixed keys carries the `assessment_` marker. -/
theorem fixedKeys_not_assess :
    ∀ k ∈ fixedKeys, "assessment_".data.isPrefixOf k.data = false := by
  decide

/-- The record of `fetch_module` splits into the fixed part followed by the
flattened assessment entries. -/
theorem fetchModuleRecord_eq (slug : String) (doc : Doc) :
    fetchModuleRecord slug doc =
      fixedPart slug doc ++ flattenAssess [] (assessmentOf doc.dl) := by
  have h : ∀ p ∈ fixedPart slug doc, "assessment_".data.isPrefixOf p.1.data = false := by
    intro p hp
    refine fixedKeys_not_assess p.1 ?_
    rw [← map_fst_fixedPart slug doc]
    exact List.mem_map_of_mem Prod.fst hp
  have := flattenAssess_append_left (fixedPart slug doc) [] (assessmentOf doc.dl) h
  simpa [fetchModuleRecord] using this

/-- Every entry accumulated by assessment flattening carries the
`assessment_` marker (provided the initial entries do). -/
theorem all_flattenAssess (init : List (String × Value)) (assessment : List (String × String))
    (h : init.all isAssessPair = true) :
    (flattenAssess init assessment).all isAssessPair = true := by
  induction assessment generalizing init with
  | nil => exact h
  | cons lw items ih =>
    simp only [flattenAssess, List.foldl_cons] at *
    refine ih _ (all_pyDictSet _ _ _ _ h ?_)
    show "assessment_".data.isPrefixOf (assessKey lw.1).data = true
    rw [assessKey, strData_append]
    exact isPrefixOf_append_self _ _

/-- Assessment flattening preserves distinctness of the record's keys. -/
theorem nodup_keys_flattenAssess (init : List (String × Value))
    (assessment : List (String × String)) (h : (init.map Prod.fst).Nodup) :
    ((flattenAssess init assessment).map Prod.fst).Nodup := by
  induction assessment generalizing init with
  | nil => exact h
  | cons lw items ih =>
    simp only [flattenAssess, List.foldl_cons] at *
    exact ih _ (nodup_keys_pyDictSet _ _ _ h)

/-- Looking up a key without the `assessment_` marker is unaffected by
assessment flattening. -/
theorem lookup_flattenAssess_not_assess (init : List (String × Value))
    (assessment : List (String × String)) (k : String)
    (h : "assessment_".data.isPrefixOf k.data = false) :
    List.lookup k (flattenAssess init assessment) = List.lookup k init := by
  induction assessment generalizing init with
  | nil => simp [flattenAssess]
  | cons lw items ih =>
    simp only [flattenAssess, List.foldl_cons] at *
    rw [ih _, lookup_pyDictSet_ne _ _ _ _ (Ne.symm (assessKey_ne lw.1 k h))]

/-- Looking up a fixed key in the finished record reads the fixed part. -/
theorem lookup_record_fixed (slug : String) (doc : Doc) (k : String)
    (h : "assessment_".data.isPrefixOf k.data = false) :
    List.lookup k (fetchModuleRecord slug doc) = List.lookup k (fixedPart slug doc) :=
  lookup_flattenAssess_not_assess _ _ _ h

/-- The identifier field of an extracted record is its slug. -/
theorem recSlug_fetch (s : String) (doc : Doc) :
    recSlug (fetchModuleRecord s doc) = some s := by
  have h := lookup_record_fixed s doc "slug" (by decide)
  simp only [recSlug, h]
  rfl

/-- The records `main` accumulates carry the successful slugs in input
order. -/
theorem recordSlugs_mainRecords (oracle : String → Except String Doc) (slugs : List String) :
    recordSlugs (mainRecords oracle slugs) =
      slugs.filter (fun s => (oracle s).toOption.isSome) := by
  induction slugs with
  | nil => rfl
  | cons s rest ih =>
    cases h : oracle s with
    | ok doc =>
      have h1 : mainRecords oracle (s :: rest) =
          fetchModuleRecord s doc :: mainRecords oracle rest := by
        simp [mainRecords, List.filterMap_cons, h]
      have h2 : recordSlugs (fetchModuleRecord s doc :: mainRecords oracle rest) =
          s :: recordSlugs (mainRecords oracle rest) := by
        simp [recordSlugs, List.filterMap_cons, recSlug_fetch]
      rw [h1, h2, ih]
      simp [List.filter_cons, h, Except.toOption]
    | error e =>
      have h1 : mainRecords oracle (s :: rest) = mainRecords oracle rest := by
        simp [mainRecords, List.filterMap_cons, h]
      rw [h1, ih]
      simp [List.filter_cons, h, Except.toOption]

/-- Two oracles that agree on every slug of the input produce the same record
collection. -/
theorem mainRecords_congr (o1 o2 : String → Except String Doc) (slugs : List String)
    (h : ∀ s ∈ slugs, o1 s = o2 s) : mainRecords o1 slugs = mainRecords o2 slugs := by
  unfold mainRecords
  exact List.filterMap_congr (fun s hs => by rw [h s hs])

/-- A successful slug guarantees at least one record. -/
theorem mainRecords_ne_nil (oracle : String → Except String Doc) (slugs : List String)
    (h : ∃ s ∈ slugs, (oracle s).toOption.isSome = true) :
    mainRecords oracle slugs ≠ [] := by
  intro hnil
  obtain ⟨s, hs, hok⟩ := h
  rw [mainRecords, List.filterMap_eq_nil_iff] at hnil
  have := hnil s hs
  cases ho : oracle s with
  | ok doc => rw [ho] at this; exact Option.noConfusion this
  | error e => rw [ho] at hok; simp [Except.toOption] at hok

/-- Every accumulated record is the extraction of some slug and page. -/
theorem mem_mainRecords (oracle : String → Except String Doc) (slugs : List String)
    (r : List (String × Value)) (h : r ∈ mainRecords oracle slugs) :
    ∃ s doc, r = fetchModuleRecord s doc := by
  rw [mainRecords, List.mem_filterMap] at h
  obtain ⟨s, _, hf⟩ := h
  cases ho : oracle s with
  | ok doc =>
    rw [ho] at hf
    exact ⟨s, doc, (Option.some.inj hf).symm⟩
  | error e =>
    rw [ho] at hf
    exact Option.noConfusion hf

/-- The one step of the `DataFrame` column union. -/
theorem mem_unionKeys_foldl (records : List (List (String × Value))) (acc : List String)
    (k : String) (h : k ∈ acc ∨ ∃ r ∈ records, k ∈ r.map Prod.fst) :
    k ∈ records.foldl
      (fun cols r => cols ++ (r.map Prod.fst).filter (fun x => !cols.contains x)) acc := by
  induction records generalizing acc with
  | nil =>
    rcases h with h | ⟨r, hr, _⟩
    · exact h
    · exact absurd hr (List.not_mem_nil r)
  | cons r rest ih =>
    simp only [List.foldl_cons]
    rcases h with h | ⟨r', hr', hk⟩
    · exact ih _ (Or.inl (List.mem_append_left _ h))
    · rcases List.mem_cons.mp hr' with rfl | hr'
      · refine ih _ (Or.inl ?_)
        by_cases hacc : k ∈ acc
        · exact List.mem_append_left _ hacc
        · refine List.mem_append_right _ ?_
          refine List.mem_filter.mpr ⟨hk, ?_⟩
          simpa [List.contains] using hacc
      · exact ih _ (Or.inr ⟨r', hr', hk⟩)

/-- A key of any record is a `DataFrame` column. -/
theorem mem_unionKeys (records : List (List (String × Value))) (r : List (String × Value))
    (k : String) (hr : r ∈ records) (hk : k ∈ r.map Prod.fst) :
    k ∈ unionKeys records :=
  mem_unionKeys_foldl records [] k (Or.inr ⟨r, hr, hk⟩)

/-- The key list of an extracted record: the fixed keys followed by the
flattened assessment keys. -/
theorem map_fst_record (slug : String) (doc : Doc) :
    (fetchModuleRecord slug doc).map Prod.fst =
      fixedKeys ++ (flattenAssess [] (assessmentOf doc.dl)).map Prod.fst := by
  rw [fetchModuleRecord_eq, List.map_append, map_fst_fixedPart]

/-- Every fixed key occurs among an extracted record's keys. -/
theorem fixed_mem_record_keys (slug : String) (doc : Doc) (k : String) (h : k ∈ fixedKeys) :
    k ∈ (fetchModuleRecord slug doc).map Prod.fst := by
  rw [map_fst_record]
  exact List.mem_append_left _ h

/-- On a record collection produced by the loop with at least one success, the
`DataFrame` step finds its `aims` and `learning_methods` columns and succeeds. -/
theorem csvStep_mainRecords (oracle : String → Except String Doc) (slugs : List String)
    (h : ∃ s ∈ slugs, (oracle s).toOption.isSome = true) :
    csvStep (mainRecords oracle slugs) = Except.ok (renderCsv (mainRecords oracle slugs)) := by
  have hne := mainRecords_ne_nil oracle slugs h
  have hex : ∃ r, r ∈ mainRecords oracle slugs := by
    cases hr : mainRecords oracle slugs with
    | nil => exact absurd hr hne
    | cons r rest =>
      exact ⟨r, List.mem_cons_self _ _⟩
  obtain ⟨r, hmem⟩ := hex
  obtain ⟨s, doc, rfl⟩ := mem_mainRecords oracle slugs r hmem
  have ha : "aims" ∈ unionKeys (mainRecords oracle slugs) :=
    mem_unionKeys _ _ _ hmem (fixed_mem_record_keys s doc "aims" (by decide))
  have hl : "learning_methods" ∈ unionKeys (mainRecords oracle slugs) :=
    mem_unionKeys _ _ _ hmem (fixed_mem_record_keys s doc "learning_methods" (by decide))
  simp [csvStep, List.contains, ha, hl]

/-- The weight recorded by the last assessment block that yields a given
label, `none` when no block yields it. -/
def lastWeightFor (texts : List String) (label : String) : Option String :=
  (((texts.map parseAssess).reverse).find? (fun lw => lw.1 == label)).map Prod.snd

theorem lastWeightFor_cons (t : String) (ts : List String) (label : String) :
    lastWeightFor (t :: ts) label =
      (lastWeightFor ts label).or
        (if (parseAssess t).1 == label then some (parseAssess t).2 else none) := by
  unfold lastWeightFor
  rw [List.map_cons, List.reverse_cons, List.find?_append]
  cases hf : List.find? (fun lw => lw.1 == label) (List.map parseAssess ts).reverse with
  | none => cases hp : ((parseAssess t).1 == label) <;> simp [List.find?, hp, Option.or]
  | some lw => simp

/-- Dict assignment over the block texts realizes last-wins lookup: the value
found under a label is the weight of the last block yielding that label,
falling back to the initial dict. -/
theorem lookup_assessFold (texts : List String) (d : List (String × String)) (label : String) :
    List.lookup label
        (texts.foldl (fun d t => pyDictSet d (parseAssess t).1 (parseAssess t).2) d) =
      (lastWeightFor texts label).or (List.lookup label d) := by
  induction texts generalizing d with
  | nil => simp [lastWeightFor]
  | cons t ts ih =>
    rw [List.foldl_cons, ih, lastWeightFor_cons]
    cases hlast : lastWeightFor ts label with
    | some w' => simp [Option.or]
    | none =>
      simp only [Option.or]
      by_cases hl : (parseAssess t).1 = label
      · rw [← hl, lookup_pyDictSet_self]
        simp [hl]
      · rw [lookup_pyDictSet_ne _ _ _ _ (Ne.symm hl)]
        have hb : ((parseAssess t).1 == label) = false := by simp [hl]
        simp [hb]

/-- The assessment dict's lookup is exactly last-wins over the block texts. -/
theorem lookup_assessFromTexts (texts : List String) (label : String) :
    List.lookup label (assessFromTexts texts) = lastWeightFor texts label := by
  rw [assessFromTexts, lookup_assessFold]
  simp [List.lookup]

/-- The assessment dict's labels are distinct. -/
theorem nodup_keys_assessFromTexts (texts : List String) :
    ((assessFromTexts texts).map Prod.fst).Nodup := by
  suffices h : ∀ (d : List (String × String)), (d.map Prod.fst).Nodup →
      ((texts.foldl (fun d t => pyDictSet d (parseAssess t).1 (parseAssess t).2) d).map
        Prod.fst).Nodup by
    exact h [] (by simp)
  induction texts with
  | nil => exact fun d hd => hd
  | cons t ts ih =>
    intro d hd
    rw [List.foldl_cons]
    exact ih _ (nodup_keys_pyDictSet _ _ _ hd)

/-- One paragraph step of the description walk agrees with the amended
token-classified step. -/
theorem descStep_eq_amended (acc : DescAcc) (p : Para) :
    descStep acc p = amendedStep acc (tokOf p) := by
  cases hp : p.strong <;> simp [descStep, amendedStep, tokOf, hp]

/-- The description walk agrees with the amended token-classified walk from
any starting accumulator. -/
theorem foldl_desc_eq_amended (ps : List Para) (acc : DescAcc) :
    ps.foldl descStep acc = (ps.map tokOf).foldl amendedStep acc := by
  induction ps generalizing acc with
  | nil => rfl
  | cons p ps ih => simp [List.foldl_cons, descStep_eq_amended, ih]

/-- Characterization of the one-separator split: the parts before and after
the first separator occurrence, or the whole string. -/
theorem pySplitOnceGo_eq (sep : Char) (cs acc : List Char) :
    pySplitOnceGo sep cs acc =
      if cs.contains sep then
        [⟨acc.reverse ++ cs.takeWhile (fun c => !(c == sep))⟩,
         ⟨(cs.dropWhile (fun c => !(c == sep))).tail⟩]
      else [⟨acc.reverse ++ cs⟩] := by
  induction cs generalizing acc with
  | nil => simp [pySplitOnceGo]
  | cons c rest ih =>
    by_cases hc : c = sep
    · subst hc
      simp [pySplitOnceGo, List.takeWhile_cons, List.dropWhile_cons]
    · have hb : (c == sep) = false := by simp [hc]
      have hc' : ¬sep = c := fun hh => hc hh.symm
      simp [pySplitOnceGo, hb, hc', ih, List.takeWhile_cons, List.dropWhile_cons,
        List.append_assoc]

/-- Folding dict assignments whose keys all avoid `k` leaves the lookup of `k`
unchanged. -/
theorem lookup_metaFold (l : List (String × String)) (d : List (String × String))
    (k : String) (h : ∀ p ∈ l, p.1 ≠ k) :
    List.lookup k (l.foldl (fun d p => pyDictSet d p.1 p.2) d) = List.lookup k d := by
  induction l generalizing d with
  | nil => rfl
  | cons p rest ih =>
    rw [List.foldl_cons, ih _ (fun q hq => h q (List.mem_cons_of_mem _ hq)),
      lookup_pyDictSet_ne _ _ _ _ (Ne.symm (h p (List.mem_cons_self _ _)))]

/-- A key absent from the `meta` tags is absent from the comprehension's dict,
so `get` falls back to the empty string. -/
theorem metaGet_missing (metas : List (String × String)) (k : String)
    (h : ∀ p ∈ metas, p.1 ≠ k) : metaGet (metaMapOf metas) k = "" := by
  rw [metaGet, metaMapOf,
    lookup_metaFold _ _ _ (fun p hp => h p (List.mem_filter.mp hp).1)]
  rfl

/-- Claim C1 (counterexample): on the raw aims buffer of the example, the
extraction does not discard the trailing "At the end" sentence.  The split
only occurs at numeric list markers, so that sentence stays inside the second
fragment (after "Apply Y."), and the begins-with filter tests whole fragments,
which begin with "Apply". -/
theorem aims_example_counterexample :
    aimsOf "1. Understand X.\n2. Apply Y.\nAt the end, students will know Z." ≠
      ["Understand X.", "Apply Y."] := by
  decide

/-- Claim C1 (amended): for the raw aims buffer
"1. Understand X.\n2. Apply Y.\nAt the end, students will know Z.", the aims
extraction yields ["Understand X.", "Apply Y.\nAt the end, students will know
Z."]: the trailing "At the end" sentence survives inside the second fragment,
because fragments are cut only at numeric list markers and the "At the end"
filter applies to fragment starts. -/
theorem aims_example_amended :
    aimsOf "1. Understand X.\n2. Apply Y.\nAt the end, students will know Z." =
      ["Understand X.", "Apply Y.\nAt the end, students will know Z."] := by
  decide

/-- Claim C2 (counterexample): when every fetch fails, the run does not
complete.  With one identifier and a failing oracle, the JSON file is written
but the DataFrame step raises a `KeyError` on the missing `aims` column
(`pd.DataFrame([])` has no columns), so the tabular file is never written. -/
theorem main_all_failures_counterexample :
    (mainRun (fun _ => Except.error "connection refused")
        ["brain-and-behaviour-PSYC0014"]).completed = false ∧
      (mainRun (fun _ => Except.error "connection refused")
          ["brain-and-behaviour-PSYC0014"]).files.map Prod.fst =
        ["ucl_modules_structured.json"] := by
  decide

/-- Claim C2 (amended): provided at least one fetch succeeds, the run
continues past individual fetch failures and completes normally, writing both
the JSON file and the tabular file; each failed identifier is logged to
standard output and contributes no record.  (When every fetch fails, only the
JSON file is written and the run dies on the DataFrame step.) -/
theorem main_partial_failure_completes (oracle : String → Except String Doc)
    (slugs : List String) (h : ∃ s ∈ slugs, (oracle s).toOption.isSome = true) :
    (mainRun oracle slugs).completed = true ∧
      (mainRun oracle slugs).files =
        [("ucl_modules_structured.json", serializeJson (mainRecords oracle slugs)),
         ("ucl_modules_structured.csv", renderCsv (mainRecords oracle slugs))] ∧
      ∀ s e, s ∈ slugs → oracle s = Except.error e →
        logLine oracle s ∈ (mainRun oracle slugs).log ∧
          s ∉ recordSlugs (mainRecords oracle slugs) := by
  have hc := csvStep_mainRecords oracle slugs h
  refine ⟨?_, ?_, ?_⟩
  · simp [mainRun, hc]
  · simp [mainRun, hc]
  · intro s e hs he
    constructor
    · have hmem : logLine oracle s ∈ slugs.map (logLine oracle) :=
        List.mem_map_of_mem _ hs
      simp only [mainRun, hc]
      exact List.mem_append_left _ hmem
    · rw [recordSlugs_mainRecords]
      intro hmem
      have := (List.mem_filter.mp hmem).2
      rw [he] at this
      simp [Except.toOption] at this

/-- Witness for the amended Claim C2 at a concrete two-identifier run with one
success and one failure. -/
theorem main_partial_failure_witness :
    (mainRun
        (fun s => if s = "good" then Except.ok (Doc.mk none [] [] none)
          else Except.error "boom")
        ["good", "bad"]).completed = true :=
  (main_partial_failure_completes _ _ ⟨"good", by decide, by decide⟩).1

/-- Claim C3 (counterexample): the claim's reading — only a paragraph
consisting solely of bolded heading text switches the section state — differs
from the code on a paragraph that contains a bold element alongside further
text: the code treats it as a heading (switching state and dropping its text),
the claim's machine treats it as body text. -/
theorem desc_heading_counterexample :
    specDescRun
        [⟨some "Module Outline:", "Module Outline:"⟩,
         ⟨some "Key point", "Key point more body text"⟩,
         ⟨none, "tail text"⟩] ≠
      descRun
        [⟨some "Module Outline:", "Module Outline:"⟩,
         ⟨some "Key point", "Key point more body text"⟩,
         ⟨none, "tail text"⟩] := by
  decide

/-- Claim C3 (amended): any paragraph containing a bolded element switches the
section state according to the bolded text (exact "Module Outline:" →
outline, exact "Module Aims:" → aims, "Teaching and Learning Methods" by
prefix → methods, anything else → none) and contributes no body text, even
when the paragraph has text beyond the bold element; paragraphs with no
bolded element contribute their trimmed joined text to the current section's
accumulator (and nothing when no section is active). -/
theorem desc_machine_amended :
    (∀ ps : List Para, descRun ps = amendedDescRun ps) ∧
      ∀ (acc : DescAcc) (h : String),
        amendedStep acc (DescTok.heading h) = { acc with state := headingState h } :=
  ⟨fun ps => foldl_desc_eq_amended ps descInit, fun _ _ => rfl⟩

/-- Claim C4 (counterexample): with a duplicated identifier in the input list
and a succeeding oracle, the output collection holds two records for that
identifier, so "at most one record per identifier" fails. -/
theorem records_duplicate_counterexample :
    ¬((recordSlugs (mainRecords (fun _ => Except.ok (Doc.mk none [] [] none))
        ["organic-chemistry-CHEM0016", "organic-chemistry-CHEM0016"])).count
          "organic-chemistry-CHEM0016" ≤ 1) := by
  decide

/-- Claim C4 (amended): the records' identifiers are exactly the successful
identifiers of the input list in input order (order-preserving, failures
omitted, one record per succeeding input position); when the input list has
no duplicates, the collection holds at most one record per identifier. -/
theorem records_order_amended (oracle : String → Except String Doc) (slugs : List String) :
    recordSlugs (mainRecords oracle slugs) =
        slugs.filter (fun s => (oracle s).toOption.isSome) ∧
      (slugs.Nodup → ∀ s, (recordSlugs (mainRecords oracle slugs)).count s ≤ 1) := by
  refine ⟨recordSlugs_mainRecords oracle slugs, fun hnd s => ?_⟩
  rw [recordSlugs_mainRecords]
  exact le_trans ((List.filter_sublist slugs).count_le s)
    (List.nodup_iff_count_le_one.mp hnd s)

/-- Witness for the amended Claim C4 at a concrete duplicate-free input. -/
theorem records_order_witness :
    (recordSlugs (mainRecords (fun _ => Except.error "e") ["a", "b"])).count "a" ≤ 1 :=
  (records_order_amended _ _).2 (by decide) "a"

/-- Claim C5: the assessment split behaves as specified — with a "%" present,
the weight is the trimmed left part with "%" re-appended and the label the
trimmed right part; with no "%", the whole text is the label with empty
weight — and the two quoted instances hold. -/
theorem assessment_split_correct :
    (∀ text : String, parseAssess text = specParseAssess text) ∧
      parseAssess "80% Exam" = ("Exam", "80%") ∧
      parseAssess "Coursework" = ("Coursework", "") := by
  refine ⟨fun text => ?_, by decide, by decide⟩
  simp only [parseAssess, specParseAssess, pySplitOnce, pySplitOnceGo_eq]
  by_cases hm : '%' ∈ text.data
  · simp [hm]
  · simp [hm]

/-- Claim C6: every extracted record has the identifier and URL, its key list
is the thirteen fixed keys followed by the assessment-derived keys (each
carrying the `assessment_` marker), so the fixed key set is identical across
all records.  Unextractable fields sit in the fixed part with their degraded
defaults (empty string / empty list / empty dict; the title falls back to the
slug), so no fixed key is ever absent. -/
theorem record_schema_stable (slug : String) (doc : Doc) :
    (fetchModuleRecord slug doc).map Prod.fst =
        fixedKeys ++ (flattenAssess [] (assessmentOf doc.dl)).map Prod.fst ∧
      List.lookup "slug" (fetchModuleRecord slug doc) = some (Value.s slug) ∧
      List.lookup "url" (fetchModuleRecord slug doc) = some (Value.s (BASE_URL ++ slug)) ∧
      (flattenAssess [] (assessmentOf doc.dl)).all isAssessPair = true := by
  refine ⟨map_fst_record slug doc, ?_, ?_, all_flattenAssess [] _ rfl⟩
  · rw [lookup_record_fixed slug doc "slug" (by decide)]
    rfl
  · rw [lookup_record_fixed slug doc "url" (by decide)]
    rfl

/-- Claim C7: a document with no label reading exactly "Restrictions" (or
whose first such label has no following value element) yields the empty
restrictions string — the extractor is total, so no error is possible — and
when the label and value exist, the value's text fragments joined by single
spaces. -/
theorem restrictions_extraction (dl : List DlEntry) :
    ((∀ e ∈ dl, e.dt ≠ "Restrictions") → restrictionsOf dl = "") ∧
      ∀ e, dl.find? (fun x => x.dt == "Restrictions") = some e →
        restrictionsOf dl =
          (match e.dd with
           | some dd => String.intercalate " " dd.strippedStrings
           | none => "") := by
  constructor
  · intro h
    have hf : dl.find? (fun x => x.dt == "Restrictions") = none := by
      rw [List.find?_eq_none]
      intro e he
      simpa using h e he
    unfold restrictionsOf
    rw [hf]
  · intro e he
    unfold restrictionsOf
    rw [he]

/-- Witness for Claim C7: concrete documents without and with the
"Restrictions" label. -/
theorem restrictions_extraction_witness :
    restrictionsOf [⟨"Key information", none⟩] = "" ∧
      restrictionsOf [⟨"Restrictions", some ⟨["None", "listed"], []⟩⟩] = "None listed" :=
  ⟨(restrictions_extraction _).1 (by decide),
   (restrictions_extraction _).2 ⟨"Restrictions", some ⟨["None", "listed"], []⟩⟩ (by decide)⟩

/-- Claim C8: when the metadata mapping lacks a key (said of
`ucl:sanitized_faculty` and likewise for the other fixed metadata keys), the
corresponding read defaults to the empty string, and the record carries the
field with value `""` — present, not missing, not null. -/
theorem missing_meta_default (doc : Doc) (slug : String) :
    ∀ key, (∀ p ∈ doc.metas, p.1 ≠ key) →
      metaGet (metaMapOf doc.metas) key = "" ∧
        (key = "ucl:sanitized_faculty" →
          List.lookup "faculty" (fetchModuleRecord slug doc) = some (Value.s "")) := by
  intro key hk
  refine ⟨metaGet_missing _ _ hk, fun hkey => ?_⟩
  subst hkey
  rw [lookup_record_fixed slug doc "faculty" (by decide)]
  show some (Value.s (metaGet (metaMapOf doc.metas) "ucl:sanitized_faculty")) =
    some (Value.s "")
  rw [metaGet_missing _ _ hk]

/-- Witness for Claim C8: a concrete document whose `meta` tags lack the
faculty key. -/
theorem missing_meta_default_witness :
    List.lookup "faculty"
        (fetchModuleRecord "m" (Doc.mk none [("ucl:sanitized_level", "6")] [] none)) =
      some (Value.s "") :=
  (missing_meta_default (Doc.mk none [("ucl:sanitized_level", "6")] [] none) "m"
    "ucl:sanitized_faculty" (by decide)).2 rfl

/-- Claim C9: the pipeline from page content to serialized JSON is
deterministic — two runs whose fetches return the same page content for every
input identifier produce identical JSON output. -/
theorem json_deterministic (o1 o2 : String → Except String Doc) (slugs : List String)
    (h : ∀ s ∈ slugs, o1 s = o2 s) :
    serializeJson (mainRecords o1 slugs) = serializeJson (mainRecords o2 slugs) := by
  rw [mainRecords_congr o1 o2 slugs h]

/-- Witness for Claim C9: two syntactically different oracles agreeing on the
input produce the same JSON. -/
theorem json_deterministic_witness :
    serializeJson (mainRecords (fun _ => Except.error "timeout") ["m"]) =
      serializeJson (mainRecords
        (fun s => if s = "m" then Except.error "timeout"
          else Except.ok (Doc.mk none [] [] none)) ["m"]) :=
  json_deterministic _ _ _ (fun s hs => by
    rw [List.mem_singleton] at hs
    subst hs
    rfl)

/-- Claim C10: duplicate assessment labels collapse to a single entry whose
weight comes from the last block yielding that label (dict assignment
overwrites in place), the record's keys stay distinct, so the flattened
record carries exactly one key per assessment label. -/
theorem assessment_last_wins (texts : List String) (slug : String) (doc : Doc) :
    ((assessFromTexts texts).map Prod.fst).Nodup ∧
      (∀ label, List.lookup label (assessFromTexts texts) = lastWeightFor texts label) ∧
      ((fetchModuleRecord slug doc).map Prod.fst).Nodup := by
  refine ⟨nodup_keys_assessFromTexts texts,
    fun label => lookup_assessFromTexts texts label, ?_⟩
  have hfix : ((fixedPart slug doc).map Prod.fst).Nodup := by
    rw [map_fst_fixedPart]
    decide
  exact nodup_keys_flattenAssess _ _ hfix

end UclMods
